import Mathlib

open Matrix

/-!
Verification of the endaq pose-estimation utilities (`src/utils.py`).

The numerical code is shallowly embedded:
* the rotation / Lie-algebra module (`R`, `subangle`, `axb2`, `calibrate`,
  `msqError`, `apply_ahrs`) is embedded over `ℝ` (idealized exact arithmetic);
* the Kalman position/velocity estimator (`kalman_filter`) is embedded over
  `ℚ`, so that every definition is computable and concrete runs can be
  evaluated;
* fallible operations (`assert`, out-of-range numpy writes, `np.linalg.inv`
  on a singular matrix) are modelled in an `Except String` monad;
* the external `ahrs` library calls (`Madgwick.updateIMU`, `updateMARG`,
  `Quaternion`, `Quaternion.rotate`) are abstracted as parameters, bundled in
  the `AhrsLib` structure.
-/

/-- 3-vectors over the reals (one accelerometer / gyro / mag sample). -/
abbrev Vec3f := Fin 3 → ℝ

/-- Quaternions as raw length-4 coordinate vectors, as `ahrs` stores them. -/
abbrev Quat4 := Fin 4 → ℝ

/-- 6-dimensional kinematic state `[x, y, z, vx, vy, vz]` over the reals. -/
abbrev Vec6f := Fin 6 → ℝ

/-- Euclidean norm of a 3-vector, `numpy.linalg.norm`. -/
noncomputable def norm3 (v : Vec3f) : ℝ :=
  Real.sqrt (v 0 ^ 2 + v 1 ^ 2 + v 2 ^ 2)

/-- The Rodrigues-form matrix built by `R` from `c = cos θ`, `s = sin θ` and
the axis components `x, y, z` (`src/utils.py` lines 88-94, the literal
entries of the returned `np.array`). -/
def rodrigues (c s x y z : ℝ) : Matrix (Fin 3) (Fin 3) ℝ :=
  !![c + x^2*(1-c),   x*y*(1-c) - z*s, x*z*(1-c) + y*s;
     y*x*(1-c) + z*s, c + y^2*(1-c),   y*z*(1-c) - x*s;
     z*x*(1-c) - y*s, z*y*(1-c) + x*s, c + z^2*(1-c)]

open Classical in
/-- Function `R(lie_vec)` (`src/utils.py` lines 75-94): the exponential map from a Lie
3-vector to a rotation matrix.  `if not np.any(lie_vec)` returns the identity;
otherwise the angle is `norm(lie_vec)/2` (SU(2) double cover) and the axis is
`lie_vec/norm(lie_vec)`. -/
noncomputable def R (lie_vec : Vec3f) : Matrix (Fin 3) (Fin 3) ℝ :=
  if lie_vec = 0 then 1 else
    rodrigues (Real.cos (norm3 lie_vec / 2)) (Real.sin (norm3 lie_vec / 2))
      (lie_vec 0 / norm3 lie_vec) (lie_vec 1 / norm3 lie_vec)
      (lie_vec 2 / norm3 lie_vec)

open Classical in
/-- Function `subangle(v1,v2)` (`src/utils.py` lines 68-72):
`np.arccos(np.dot(v1,v2)/(norm(v1)*norm(v2)))`.  There is no special-case
branch in the source; when `norm(v1)*norm(v2) = 0` the IEEE division yields
`±inf`/`nan` and `arccos` of it is `nan`.  The undefined (`nan`) outcome is
modelled as `none`. -/
noncomputable def subangle (v1 v2 : Vec3f) : Option ℝ :=
  if norm3 v1 * norm3 v2 = 0 then none
  else some (Real.arccos ((v1 0 * v2 0 + v1 1 * v2 1 + v1 2 * v2 2) /
    (norm3 v1 * norm3 v2)))

/-- Cross product of two 3-vectors (`np.cross` on one column pair). -/
def cross3 (a b : Vec3f) : Vec3f :=
  ![a 1 * b 2 - a 2 * b 1, a 2 * b 0 - a 0 * b 2, a 0 * b 1 - a 1 * b 0]

/-- Function `axb2(a,b,sumall=True)` (`src/utils.py` lines 96-105): the summed squared
norms of the columnwise cross products of two 3×N series, the series given as
lists of columns. -/
def axb2 (a b : List Vec3f) : ℝ :=
  ((a.zip b).map (fun p =>
    (cross3 p.1 p.2 0)^2 + (cross3 p.1 p.2 1)^2 + (cross3 p.1 p.2 2)^2)).sum

section RotationProofs

/-- Orthogonality of the Rodrigues matrix: entrywise polynomial identity under
`c² + s² = 1` and `x² + y² + z² = 1`. -/
theorem rodrigues_orthogonal (c s x y z : ℝ) (h1 : c^2 + s^2 = 1)
    (h2 : x^2 + y^2 + z^2 = 1) :
    (rodrigues c s x y z)ᵀ * rodrigues c s x y z = 1 := by
  have ht : (rodrigues c s x y z)ᵀ =
      !![c + x^2*(1-c),   y*x*(1-c) + z*s, z*x*(1-c) - y*s;
         x*y*(1-c) - z*s, c + y^2*(1-c),   z*y*(1-c) + x*s;
         x*z*(1-c) + y*s, y*z*(1-c) - x*s, c + z^2*(1-c)] := by
    ext i j
    fin_cases i <;> fin_cases j <;> rfl
  rw [ht, rodrigues, Matrix.mul_fin_three]
  refine Matrix.ext fun i j => ?_
  fin_cases i <;> fin_cases j <;> simp [Matrix.one_apply]
  · linear_combination (1 - x^2) * h1 + (s^2 + x^2*(1-c)^2) * h2
  · linear_combination (-(x*y)) * h1 + (x*y*(1-c)^2) * h2
  · linear_combination (-(x*z)) * h1 + (x*z*(1-c)^2) * h2
  · linear_combination (-(x*y)) * h1 + (x*y*(1-c)^2) * h2
  · linear_combination (1 - y^2) * h1 + (s^2 + y^2*(1-c)^2) * h2
  · linear_combination (-(y*z)) * h1 + (y*z*(1-c)^2) * h2
  · linear_combination (-(x*z)) * h1 + (x*z*(1-c)^2) * h2
  · linear_combination (-(y*z)) * h1 + (y*z*(1-c)^2) * h2
  · linear_combination (1 - z^2) * h1 + (s^2 + z^2*(1-c)^2) * h2

/-- Determinant of the Rodrigues matrix is `1` under the same constraints. -/
theorem rodrigues_det (c s x y z : ℝ) (h1 : c^2 + s^2 = 1)
    (h2 : x^2 + y^2 + z^2 = 1) : (rodrigues c s x y z).det = 1 := by
  simp [rodrigues, Matrix.det_fin_three]
  linear_combination (1 + (1-c)*(x^2+y^2+z^2-1)) * h1 +
    (s^2 + (1-c) + (1-c)*s^2*(x^2+y^2+z^2-1)) * h2

/-- The squared components of a nonzero vector have positive sum. -/
theorem sumsq_pos_of_ne_zero (v : Vec3f) (hv : v ≠ 0) :
    0 < v 0 ^ 2 + v 1 ^ 2 + v 2 ^ 2 := by
  have : v 0 ≠ 0 ∨ v 1 ≠ 0 ∨ v 2 ≠ 0 := by
    by_contra h
    push_neg at h
    exact hv (funext fun i => by fin_cases i <;> simp [h.1, h.2.1, h.2.2])
  rcases this with h | h | h
  · nlinarith [sq_pos_of_ne_zero h, sq_nonneg (v 1), sq_nonneg (v 2)]
  · nlinarith [sq_pos_of_ne_zero h, sq_nonneg (v 0), sq_nonneg (v 2)]
  · nlinarith [sq_pos_of_ne_zero h, sq_nonneg (v 0), sq_nonneg (v 1)]

/-- For nonzero `v`, `norm3 v` is positive. -/
theorem norm3_pos (v : Vec3f) (hv : v ≠ 0) : 0 < norm3 v :=
  Real.sqrt_pos.mpr (sumsq_pos_of_ne_zero v hv)

/-- C1: for every nonzero 3-vector `v`, the exponential map `R v` is a proper
rotation matrix: `(R v)ᵀ * R v = 1` and `det (R v) = 1` (the floating-point
computation idealized over the reals). -/
theorem R_proper_rotation (v : Vec3f) (hv : v ≠ 0) :
    (R v)ᵀ * R v = 1 ∧ (R v).det = 1 := by
  have hN : 0 < norm3 v := norm3_pos v hv
  have hsq : norm3 v ^ 2 = v 0 ^ 2 + v 1 ^ 2 + v 2 ^ 2 := by
    rw [norm3, Real.sq_sqrt]
    positivity
  have h1 : Real.cos (norm3 v / 2) ^ 2 + Real.sin (norm3 v / 2) ^ 2 = 1 :=
    Real.cos_sq_add_sin_sq _
  have h2 : (v 0 / norm3 v)^2 + (v 1 / norm3 v)^2 + (v 2 / norm3 v)^2 = 1 := by
    field_simp
    linarith [hsq]
  rw [R, if_neg hv]
  exact ⟨rodrigues_orthogonal _ _ _ _ _ h1 h2, rodrigues_det _ _ _ _ _ h1 h2⟩

/-- Witness for C1 at `v = ![1,0,0]`. -/
theorem R_proper_rotation_witness :
    (![1,0,0] : Vec3f) ≠ 0 ∧
      ((R ![1,0,0])ᵀ * R ![1,0,0] = 1 ∧ (R ![1,0,0]).det = 1) := by
  have hv : (![1,0,0] : Vec3f) ≠ 0 := by
    intro h
    have := congrFun h 0
    simp at this
  exact ⟨hv, R_proper_rotation _ hv⟩

/-- C2: the exponential map at the zero Lie vector is the identity matrix
(the explicitly special-cased branch `if not np.any(lie_vec)`). -/
theorem R_zero_eq_identity : R 0 = 1 := by
  simp [R]

end RotationProofs

/-! ## Kalman position/velocity estimator (`kalman_filter`, `src/utils.py` 341-428)

Embedded over `ℚ` (exact arithmetic idealizing the float computation), with
`np.linalg.inv` of an exactly singular matrix modelled as a fatal
`LinAlgError`, and out-of-range list writes as `IndexError`. -/

/-- 3-vectors over `ℚ` (a lab-frame acceleration sample). -/
abbrev Vec3q := Fin 3 → ℚ

/-- 6-vectors over `ℚ` (kinematic state / measurement rows). -/
abbrev Vec6q := Fin 6 → ℚ

/-- 6×6 rational matrices. -/
abbrev Mat6 := Matrix (Fin 6) (Fin 6) ℚ

/-- The mean timestamp delta `np.mean(t[1:]-t[0:-1])`.  (For fewer than two
samples numpy produces `nan`; here the division by zero yields the junk
value `0`.) -/
def meanDiff {K : Type} [Field K] (t : List K) : K :=
  ((t.zip t.tail).map (fun p => p.2 - p.1)).sum / ((t.length : K) - 1)

/-- The state-transition matrix `F` of `kalman_filter` (lines 360-369), also
the process matrix `A` of `apply_ahrs` (lines 230-239). -/
def Fmat {K : Type} [Field K] (dt : K) : Matrix (Fin 6) (Fin 6) K :=
  !![1, 0, 0, dt, 0, 0;
     0, 1, 0, 0, dt, 0;
     0, 0, 1, 0, 0, dt;
     0, 0, 0, 1, 0, 0;
     0, 0, 0, 0, 1, 0;
     0, 0, 0, 0, 0, 1]

/-- The control matrix `B` (lines 370-379 and 241-250). -/
def Bmat {K : Type} [Field K] (dt : K) : Matrix (Fin 6) (Fin 3) K :=
  !![dt^2/2, 0, 0;
     0, dt^2/2, 0;
     0, 0, dt^2/2;
     dt, 0, 0;
     0, dt, 0;
     0, 0, dt]

/-- Inversion `np.linalg.inv` on a 6×6 matrix: fails exactly on a singular input,
otherwise returns the inverse (`det⁻¹ • adjugate`). -/
def inv6 (M : Mat6) : Option Mat6 :=
  if M.det = 0 then none else some (M.det⁻¹ • M.adjugate)

/-- The mutable program state of the `kalman_filter` loop: the `state_guess`
and `P` lists, the caller's measurement list `z` (mutated in place by the
source), and the `next_zero` reset boundary. -/
structure KState where
  sg : List Vec6q
  Ps : List Mat6
  zs : List Vec6q
  nz : ℚ

/-- One iteration of the `kalman_filter` loop (lines 403-426) at index `i`:
predict, overwrite the velocity components of `z[i]` for `i > 1`, update, and
optionally re-zero the state and covariance. -/
def kstep (dt time_period : ℚ) (reset : Bool) (Qm Rm : Mat6)
    (t : List ℚ) (acc_lab : List Vec3q) (i : Nat) (s : KState) :
    Except String KState :=
  match acc_lab[i]? with
  | none => .error "IndexError: acc_lab"
  | some a =>
    match s.zs[i]? with
    | none => .error "IndexError: z"
    | some zi =>
      let prev := s.sg.getD (i-1) 0
      let Pprev := s.Ps.getD (i-1) 0
      let state_naive := (Fmat dt).mulVec prev + (Bmat dt).mulVec a
      let P_naive := Fmat dt * Pprev * (Fmat dt)ᵀ + Qm
      let zi' := if 1 < i then
          (fun j : Fin 6 => if j.val < 3 then zi j else prev j) else zi
      match inv6 (P_naive + Rm) with
      | none => .error "LinAlgError: Singular matrix"
      | some Minv =>
        let K := P_naive * Minv
        let y := zi' - state_naive
        let sgi := state_naive + K.mulVec y
        let Pi := (1 - K) * P_naive
        if reset = true ∧ s.nz < t.getD i 0 then
          .ok ⟨s.sg.set i 0, s.Ps.set i 0, s.zs.set i zi', s.nz + time_period⟩
        else
          .ok ⟨s.sg.set i sgi, s.Ps.set i Pi, s.zs.set i zi', s.nz⟩

/-- The `for i in range(1, len(t))` loop, driven by a step counter. -/
def kloop (dt time_period : ℚ) (reset : Bool) (Qm Rm : Mat6)
    (t : List ℚ) (acc_lab : List Vec3q) :
    Nat → Nat → KState → Except String KState
  | _, 0, s => .ok s
  | i, m+1, s =>
    match kstep dt time_period reset Qm Rm t acc_lab i s with
    | .error e => .error e
    | .ok s' => kloop dt time_period reset Qm Rm t acc_lab (i+1) m s'

/-- Function `kalman_filter(t, acc_lab, z, q, r, reset, time_period)` (lines 341-428),
returning the whole final loop state.  Before the loop, the velocity
components of `z[i]` are zeroed for every `i in range(len(t))` (an
`IndexError` when `z` is shorter than `t`); `state_guess` and `P` start as
`len(t)` zero rows / zero matrices and `next_zero = -1`. -/
def kalmanRun (t : List ℚ) (acc_lab : List Vec3q) (z : List Vec6q)
    (q r : Fin 6 → ℚ) (reset : Bool) (time_period : ℚ) :
    Except String KState :=
  let dt := meanDiff t
  let n := t.length
  if z.length < n then .error "IndexError: z"
  else
    let z0 := z.mapIdx (fun i zi =>
      if i < n then (fun j : Fin 6 => if j.val < 3 then zi j else 0) else zi)
    kloop dt time_period reset (Matrix.diagonal q) (Matrix.diagonal r) t acc_lab
      1 (n - 1) ⟨List.replicate n 0, List.replicate n 0, z0, -1⟩

/-- The value `kalman_filter` actually returns: the `state_guess` list. -/
def kalman_filter (t : List ℚ) (acc_lab : List Vec3q) (z : List Vec6q)
    (q r : Fin 6 → ℚ) (reset : Bool) (time_period : ℚ) :
    Except String (List Vec6q) :=
  (kalmanRun t acc_lab z q r reset time_period).map KState.sg

/-- The value of the loop variable `next_zero` at the entry of step `i ≥ 1`,
when `reset` is enabled: `-1` initially, bumped by `time_period` whenever the
previous step's timestamp exceeded it. -/
def nzBefore (T : ℚ) (t : List ℚ) : Nat → ℚ
  | 0 => -1
  | 1 => -1
  | (i+2) =>
    if nzBefore T t (i+1) < t.getD (i+1) 0 then nzBefore T t (i+1) + T
    else nzBefore T t (i+1)

section KalmanStep

/-- C3: at every step `i ≥ 1` of the position/velocity estimator
(`kalman_filter` loop body), the predict step computes
`state_naive = F·state_{i-1} + B·acc_lab[i]` with the CURRENT step's
lab-frame acceleration, and `P_naive = F·P_{i-1}·Fᵀ + Q`; the update then
consumes exactly these predicted values (shown here for a step on which the
periodic re-zeroing does not fire, which would overwrite the result). -/
theorem kalman_predict_step (dt T : ℚ) (reset : Bool) (Qm Rm : Mat6)
    (t : List ℚ) (acc_lab : List Vec3q) (i : Nat) (s : KState)
    (a : Vec3q) (zi : Vec6q) (Minv : Mat6) (_hi : 1 ≤ i)
    (ha : acc_lab[i]? = some a) (hz : s.zs[i]? = some zi)
    (hinv : inv6 ((Fmat dt * s.Ps.getD (i-1) 0 * (Fmat dt)ᵀ + Qm) + Rm) = some Minv)
    (hres : ¬(reset = true ∧ s.nz < t.getD i 0)) :
    kstep dt T reset Qm Rm t acc_lab i s =
      .ok ⟨s.sg.set i
            ((Fmat dt).mulVec (s.sg.getD (i-1) 0) + (Bmat dt).mulVec a +
              ((Fmat dt * s.Ps.getD (i-1) 0 * (Fmat dt)ᵀ + Qm) * Minv).mulVec
                ((if 1 < i then
                    (fun j : Fin 6 => if j.val < 3 then zi j else s.sg.getD (i-1) 0 j)
                  else zi) -
                  ((Fmat dt).mulVec (s.sg.getD (i-1) 0) + (Bmat dt).mulVec a))),
          s.Ps.set i
            ((1 - (Fmat dt * s.Ps.getD (i-1) 0 * (Fmat dt)ᵀ + Qm) * Minv) *
              (Fmat dt * s.Ps.getD (i-1) 0 * (Fmat dt)ᵀ + Qm)),
          s.zs.set i
            (if 1 < i then
              (fun j : Fin 6 => if j.val < 3 then zi j else s.sg.getD (i-1) 0 j)
            else zi),
          s.nz⟩ := by
  simp only [List.getD_eq_getElem?_getD] at hinv hres
  simp [kstep, ha, hz, hinv, hres]

/-- Witness for C3: one concrete non-reset step with `dt = 1`, zero previous
state and covariance, `Q = 0`, `R = 1`. -/
theorem kalman_predict_step_witness :
    (([0, 0] : List Vec3q)[1]? = some 0) ∧
    ((KState.mk [0, 0] [0, 0] [0, 0] 0).zs[1]? = some 0) ∧
    (inv6 ((Fmat 1 * ([0, 0] : List Mat6).getD (1-1) 0 * (Fmat 1)ᵀ + 0) + 1) =
      some 1) ∧
    kstep 1 (3/10) false 0 1 [0, 1] [0, 0] 1 ⟨[0, 0], [0, 0], [0, 0], 0⟩ =
      .ok ⟨([0, 0] : List Vec6q).set 1
            ((Fmat 1).mulVec (([0, 0] : List Vec6q).getD (1-1) 0) +
              (Bmat 1).mulVec 0 +
              ((Fmat 1 * ([0, 0] : List Mat6).getD (1-1) 0 * (Fmat 1)ᵀ + 0) * 1).mulVec
                ((if 1 < 1 then
                    (fun j : Fin 6 =>
                      if j.val < 3 then (0 : Vec6q) j
                      else ([0, 0] : List Vec6q).getD (1-1) 0 j)
                  else 0) -
                  ((Fmat 1).mulVec (([0, 0] : List Vec6q).getD (1-1) 0) +
                    (Bmat 1).mulVec 0))),
          ([0, 0] : List Mat6).set 1
            ((1 - (Fmat 1 * ([0, 0] : List Mat6).getD (1-1) 0 * (Fmat 1)ᵀ + 0) * 1) *
              (Fmat 1 * ([0, 0] : List Mat6).getD (1-1) 0 * (Fmat 1)ᵀ + 0)),
          ([0, 0] : List Vec6q).set 1
            (if 1 < 1 then
              (fun j : Fin 6 =>
                if j.val < 3 then (0 : Vec6q) j
                else ([0, 0] : List Vec6q).getD (1-1) 0 j)
            else 0),
          0⟩ := by
  refine ⟨rfl, rfl, by simp [inv6], ?_⟩
  exact kalman_predict_step 1 (3/10) false 0 1 [0, 1] [0, 0] 1
    ⟨[0, 0], [0, 0], [0, 0], 0⟩ 0 0 1 (le_refl 1) rfl rfl (by simp [inv6])
    (by simp)

end KalmanStep

section KalmanRuns

/-- Loop exit: zero remaining iterations. -/
theorem kloop_zero (dt T : ℚ) (reset : Bool) (Qm Rm : Mat6) (t : List ℚ)
    (acc_lab : List Vec3q) (i : Nat) (s : KState) :
    kloop dt T reset Qm Rm t acc_lab i 0 s = .ok s := rfl

/-- One remaining loop iteration. -/
theorem kloop_one (dt T : ℚ) (reset : Bool) (Qm Rm : Mat6) (t : List ℚ)
    (acc_lab : List Vec3q) (i : Nat) (s : KState) :
    kloop dt T reset Qm Rm t acc_lab i 1 s =
      match kstep dt T reset Qm Rm t acc_lab i s with
      | .error e => .error e
      | .ok s' => .ok s' := rfl

/-- Two remaining loop iterations. -/
theorem kloop_two (dt T : ℚ) (reset : Bool) (Qm Rm : Mat6) (t : List ℚ)
    (acc_lab : List Vec3q) (i : Nat) (s : KState) :
    kloop dt T reset Qm Rm t acc_lab i 2 s =
      match kstep dt T reset Qm Rm t acc_lab i s with
      | .error e => .error e
      | .ok s' =>
        match kstep dt T reset Qm Rm t acc_lab (i+1) s' with
        | .error e => .error e
        | .ok s'' => .ok s'' := rfl

/-- Inverting the zero matrix raises (singular). -/
theorem inv6_zero : inv6 0 = none := by
  simp [inv6, Matrix.det_zero ⟨(0 : Fin 6)⟩]

/-- Inverting the identity matrix gives the identity. -/
theorem inv6_one : inv6 1 = some 1 := by
  simp [inv6]

/-- A loop step on which `P_naive + R` is singular raises `LinAlgError`. -/
theorem kstep_singular (dt T : ℚ) (reset : Bool) (Qm Rm : Mat6)
    (t : List ℚ) (acc_lab : List Vec3q) (i : Nat) (s : KState)
    (a : Vec3q) (zi : Vec6q)
    (ha : acc_lab[i]? = some a) (hz : s.zs[i]? = some zi)
    (hinv : inv6 ((Fmat dt * s.Ps.getD (i-1) 0 * (Fmat dt)ᵀ + Qm) + Rm) = none) :
    kstep dt T reset Qm Rm t acc_lab i s =
      .error "LinAlgError: Singular matrix" := by
  simp only [List.getD_eq_getElem?_getD] at hinv
  simp [kstep, ha, hz, hinv]

/-- A loop step on which the periodic re-zeroing fires overwrites the state
entry and covariance entry with exact zeros and bumps `next_zero`. -/
theorem kstep_reset (dt T : ℚ) (Qm Rm : Mat6)
    (t : List ℚ) (acc_lab : List Vec3q) (i : Nat) (s : KState)
    (a : Vec3q) (zi : Vec6q) (Minv : Mat6)
    (ha : acc_lab[i]? = some a) (hz : s.zs[i]? = some zi)
    (hinv : inv6 ((Fmat dt * s.Ps.getD (i-1) 0 * (Fmat dt)ᵀ + Qm) + Rm) = some Minv)
    (hres : s.nz < t.getD i 0) :
    kstep dt T true Qm Rm t acc_lab i s =
      .ok ⟨s.sg.set i 0, s.Ps.set i 0,
        s.zs.set i
          (if 1 < i then
            (fun j : Fin 6 => if j.val < 3 then zi j else s.sg.getD (i-1) 0 j)
          else zi),
        s.nz + T⟩ := by
  simp only [List.getD_eq_getElem?_getD] at hinv hres
  simp [kstep, ha, hz, hinv, hres]

/-- C5 counterexample: with zero process noise (`q = 0`), zero measurement
noise (`r = 0`) and an identically-zero acceleration input, the very first
update step inverts `P_naive + R = 0`, which is singular: the run fails with
`LinAlgError` instead of returning the all-zero state history. -/
theorem kalman_zero_noise_singular :
    kalman_filter [0, 1] [0, 0] [0, 0] 0 0 false (3/10) =
      .error "LinAlgError: Singular matrix" := by
  simp only [kalman_filter, kalmanRun]
  simp only [List.length_cons, List.length_nil]
  have h2 : (0 + 1 + 1 : ℕ) = 2 := rfl
  simp only [h2]
  simp only [List.mapIdx_cons, List.mapIdx_nil, List.replicate_succ,
    List.replicate_zero]
  simp
  have hdiag : Matrix.diagonal (0 : Fin 6 → ℚ) = (0 : Mat6) := Matrix.diagonal_zero
  simp only [hdiag]
  rw [kloop_one]
  have hmat : (Fmat (meanDiff ([0, 1] : List ℚ)) *
      ((KState.mk [0, 0] [0, 0] [fun _ => 0, fun _ => 0] (-1)).Ps.getD (1-1) 0) *
      (Fmat (meanDiff ([0, 1] : List ℚ)))ᵀ + 0) + 0 = (0 : Mat6) := by
    simp
  have hinv0 : inv6 ((Fmat (meanDiff ([0, 1] : List ℚ)) *
      ((KState.mk [0, 0] [0, 0] [fun _ => 0, fun _ => 0] (-1)).Ps.getD (1-1) 0) *
      (Fmat (meanDiff ([0, 1] : List ℚ)))ᵀ + 0) + 0) = none := by
    rw [hmat]
    exact inv6_zero
  rw [kstep_singular (meanDiff [0, 1]) (3/10) false 0 0 [0, 1] [0, 0] 1
    ⟨[0, 0], [0, 0], [fun _ => 0, fun _ => 0], -1⟩ 0 (fun _ => 0) rfl rfl hinv0]
  simp [Except.map]

end KalmanRuns

section KalmanNoDrift

/-- Reading any entry of an all-`x` list with default `x` gives `x`. -/
theorem getD_replicate_self {α : Type} (x : α) (n k : Nat) :
    (List.replicate n x).getD k x = x := by
  rw [List.getD_eq_getElem?_getD, List.getElem?_replicate]
  split <;> rfl

/-- Helper: a non-reset loop step, written out (predict with the current
acceleration, velocity-substituted pseudo-measurement, Kalman update). -/
theorem kstep_update (dt T : ℚ) (reset : Bool) (Qm Rm : Mat6)
    (t : List ℚ) (acc_lab : List Vec3q) (i : Nat) (s : KState)
    (a : Vec3q) (zi : Vec6q) (Minv : Mat6)
    (ha : acc_lab[i]? = some a) (hz : s.zs[i]? = some zi)
    (hinv : inv6 ((Fmat dt * s.Ps.getD (i-1) 0 * (Fmat dt)ᵀ + Qm) + Rm) = some Minv)
    (hres : ¬(reset = true ∧ s.nz < t.getD i 0)) :
    kstep dt T reset Qm Rm t acc_lab i s =
      .ok ⟨s.sg.set i
            ((Fmat dt).mulVec (s.sg.getD (i-1) 0) + (Bmat dt).mulVec a +
              ((Fmat dt * s.Ps.getD (i-1) 0 * (Fmat dt)ᵀ + Qm) * Minv).mulVec
                ((if 1 < i then
                    (fun j : Fin 6 => if j.val < 3 then zi j else s.sg.getD (i-1) 0 j)
                  else zi) -
                  ((Fmat dt).mulVec (s.sg.getD (i-1) 0) + (Bmat dt).mulVec a))),
          s.Ps.set i
            ((1 - (Fmat dt * s.Ps.getD (i-1) 0 * (Fmat dt)ᵀ + Qm) * Minv) *
              (Fmat dt * s.Ps.getD (i-1) 0 * (Fmat dt)ᵀ + Qm)),
          s.zs.set i
            (if 1 < i then
              (fun j : Fin 6 => if j.val < 3 then zi j else s.sg.getD (i-1) 0 j)
            else zi),
          s.nz⟩ := by
  simp only [List.getD_eq_getElem?_getD] at hinv hres
  simp [kstep, ha, hz, hinv, hres]

/-- Invariant: with `Q = 0`, invertible `R` and identically-zero acceleration,
the loop keeps the state and covariance lists all-zero. -/
theorem kloop_all_zero (dt T : ℚ) (reset : Bool) (Rm : Mat6) (hR : Rm.det ≠ 0)
    (t : List ℚ) (n : Nat) :
    ∀ (m i : Nat) (s : KState), i + m ≤ n → s.sg = List.replicate n 0 →
      s.Ps = List.replicate n 0 → s.zs.length = n →
      ∃ s', kloop dt T reset 0 Rm t (List.replicate n 0) i m s = .ok s' ∧
        s'.sg = List.replicate n 0 ∧ s'.Ps = List.replicate n 0 ∧
        s'.zs.length = n := by
  intro m
  induction m with
  | zero =>
    intro i s him hsg hPs hzs
    exact ⟨s, rfl, hsg, hPs, hzs⟩
  | succ m ih =>
    intro i s him hsg hPs hzs
    have hin : i < n := by omega
    have ha : (List.replicate n (0 : Vec3q))[i]? = some 0 :=
      List.getElem?_replicate_of_lt hin
    have hziin : i < s.zs.length := by omega
    have hzi : s.zs[i]? = some s.zs[i] := List.getElem?_eq_getElem hziin
    have hsgprev : s.sg.getD (i-1) 0 = 0 := by
      rw [hsg]; exact getD_replicate_self 0 n (i-1)
    have hPprev : s.Ps.getD (i-1) 0 = 0 := by
      rw [hPs]; exact getD_replicate_self 0 n (i-1)
    have hinvR : inv6 ((Fmat dt * s.Ps.getD (i-1) 0 * (Fmat dt)ᵀ + 0) + Rm) =
        some (Rm.det⁻¹ • Rm.adjugate) := by
      rw [hPprev]
      simp [inv6, hR]
    by_cases hc : reset = true ∧ s.nz < t.getD i 0
    · obtain ⟨hb, hlt⟩ := hc
      subst hb
      simp only [kloop]
      rw [kstep_reset dt T 0 Rm t (List.replicate n 0) i s 0 s.zs[i] _ ha hzi
        hinvR hlt]
      obtain ⟨s', h1, h2, h3, h4⟩ := ih (i+1)
        ⟨s.sg.set i 0, s.Ps.set i 0,
          s.zs.set i
            (if 1 < i then
              (fun j : Fin 6 => if j.val < 3 then s.zs[i] j else s.sg.getD (i-1) 0 j)
            else s.zs[i]), s.nz + T⟩
        (by omega)
        (by simp only; rw [hsg, List.set_replicate_self])
        (by simp only; rw [hPs, List.set_replicate_self])
        (by simp only [List.length_set]; exact hzs)
      exact ⟨s', h1, h2, h3, h4⟩
    · simp only [kloop]
      rw [kstep_update dt T reset 0 Rm t (List.replicate n 0) i s 0 s.zs[i]
        (Rm.det⁻¹ • Rm.adjugate) ha hzi hinvR hc]
      have hsgi : (Fmat dt).mulVec (s.sg.getD (i-1) 0) + (Bmat dt).mulVec 0 +
          ((Fmat dt * s.Ps.getD (i-1) 0 * (Fmat dt)ᵀ + 0) * (Rm.det⁻¹ • Rm.adjugate)).mulVec
            ((if 1 < i then
                (fun j : Fin 6 => if j.val < 3 then s.zs[i] j else s.sg.getD (i-1) 0 j)
              else s.zs[i]) -
              ((Fmat dt).mulVec (s.sg.getD (i-1) 0) + (Bmat dt).mulVec 0)) = 0 := by
        rw [hsgprev, hPprev]
        simp
      have hPi : (1 - (Fmat dt * s.Ps.getD (i-1) 0 * (Fmat dt)ᵀ + 0) *
          (Rm.det⁻¹ • Rm.adjugate)) *
          (Fmat dt * s.Ps.getD (i-1) 0 * (Fmat dt)ᵀ + 0) = 0 := by
        rw [hPprev]
        simp
      rw [hsgi, hPi]
      obtain ⟨s', h1, h2, h3, h4⟩ := ih (i+1)
        ⟨s.sg.set i 0, s.Ps.set i 0,
          s.zs.set i
            (if 1 < i then
              (fun j : Fin 6 => if j.val < 3 then s.zs[i] j else s.sg.getD (i-1) 0 j)
            else s.zs[i]), s.nz⟩
        (by omega)
        (by simp only; rw [hsg, List.set_replicate_self])
        (by simp only; rw [hPs, List.set_replicate_self])
        (by simp only [List.length_set]; exact hzs)
      exact ⟨s', h1, h2, h3, h4⟩

end KalmanNoDrift

section KalmanNoDriftMain

/-- Diagonal matrix of the zero vector of rates is the zero matrix. -/
theorem diagonal_zero_q : Matrix.diagonal (0 : Fin 6 → ℚ) = (0 : Mat6) :=
  Matrix.diagonal_zero

/-- A diagonal noise matrix with all rates nonzero is nonsingular. -/
theorem diagonal_det_ne_zero (r : Fin 6 → ℚ) (hr : ∀ j, r j ≠ 0) :
    (Matrix.diagonal r).det ≠ 0 := by
  rw [Matrix.det_diagonal]
  exact Finset.prod_ne_zero_iff.mpr (fun j _ => hr j)

/-- C5 (amended): with zero process noise (`q = 0`), measurement noise rates
all NONZERO (so that `P_naive + R` is invertible; with `r = 0` the source
raises `LinAlgError`, see the counterexample), and lab-frame acceleration
exactly zero at every step, `kalman_filter` succeeds and returns the all-zero
state history: the state stays at its initial value, no drift. -/
theorem kalman_no_drift (t : List ℚ) (z : List Vec6q) (r : Fin 6 → ℚ)
    (reset : Bool) (T : ℚ) (hz : z.length = t.length) (hr : ∀ j, r j ≠ 0) :
    kalman_filter t (List.replicate t.length 0) z 0 r reset T =
      .ok (List.replicate t.length 0) := by
  rcases Nat.eq_zero_or_pos t.length with h0 | hpos
  · simp only [kalman_filter, kalmanRun]
    simp only [diagonal_zero_q, h0, Nat.zero_sub]
    rw [if_neg (show ¬(z.length < 0) by omega)]
    rw [kloop_zero]
    rfl
  simp only [kalman_filter, kalmanRun]
  simp only [diagonal_zero_q]
  rw [if_neg (show ¬(z.length < t.length) by omega)]
  have hlen : (z.mapIdx (fun i zi =>
      if i < t.length then (fun j : Fin 6 => if j.val < 3 then zi j else 0) else zi)).length
      = t.length := by
    rw [List.length_mapIdx, hz]
  have him : 1 + (t.length - 1) ≤ t.length :=
    le_of_eq (Nat.add_sub_cancel' hpos)
  obtain ⟨s', h1, h2, h3, h4⟩ := kloop_all_zero (meanDiff t) T reset
    (Matrix.diagonal r) (diagonal_det_ne_zero r hr) t t.length
    (t.length - 1) 1
    ⟨List.replicate t.length 0, List.replicate t.length 0,
      z.mapIdx (fun i zi =>
        if i < t.length then (fun j : Fin 6 => if j.val < 3 then zi j else 0) else zi),
      -1⟩
    him rfl rfl hlen
  rw [h1]
  simp only [Except.map]
  rw [h2]

/-- Witness for C5 (amended): a concrete 2-sample run with unit measurement
noise rates. -/
theorem kalman_no_drift_witness :
    (([0, 0] : List Vec6q).length = ([0, 1] : List ℚ).length) ∧
    (∀ j : Fin 6, (fun _ : Fin 6 => (1 : ℚ)) j ≠ 0) ∧
    kalman_filter [0, 1] (List.replicate ([0, 1] : List ℚ).length 0) [0, 0] 0
      (fun _ => 1) false (3/10) =
      .ok (List.replicate ([0, 1] : List ℚ).length 0) :=
  ⟨rfl, fun _ => one_ne_zero,
    kalman_no_drift [0, 1] [0, 0] (fun _ => 1) false (3/10) rfl
      (fun _ => one_ne_zero)⟩

end KalmanNoDriftMain

section KalmanReset

/-- Any successful loop step writes only index `i` of the three lists, and
bumps `next_zero` by `time_period` exactly when the reset condition
`t[i] > next_zero` fires (with `reset` enabled); when it fires, the written
state and covariance entries are exact zeros. -/
theorem kstep_shape (dt T : ℚ) (reset : Bool) (Qm Rm : Mat6)
    (t : List ℚ) (acc_lab : List Vec3q) (i : Nat) (s s' : KState)
    (h : kstep dt T reset Qm Rm t acc_lab i s = .ok s') :
    (∃ v, s'.sg = s.sg.set i v) ∧ (∃ P, s'.Ps = s.Ps.set i P) ∧
    (∃ z', s'.zs = s.zs.set i z') ∧
    s'.nz = (if reset = true ∧ s.nz < t.getD i 0 then s.nz + T else s.nz) ∧
    ((reset = true ∧ s.nz < t.getD i 0) →
      s'.sg = s.sg.set i 0 ∧ s'.Ps = s.Ps.set i 0) := by
  rw [kstep] at h
  rcases ha : acc_lab[i]? with _ | a <;> rw [ha] at h
  · cases h
  rcases hz : s.zs[i]? with _ | zi <;> rw [hz] at h
  · cases h
  simp only at h
  rcases hinv : inv6 (Fmat dt * s.Ps.getD (i-1) 0 * (Fmat dt)ᵀ + Qm + Rm)
    with _ | Minv <;> rw [hinv] at h
  · cases h
  simp only at h
  by_cases hc : reset = true ∧ s.nz < t.getD i 0
  · rw [if_pos hc] at h
    cases h
    exact ⟨⟨0, rfl⟩, ⟨0, rfl⟩, ⟨_, rfl⟩, by rw [if_pos hc], fun _ => ⟨rfl, rfl⟩⟩
  · rw [if_neg hc] at h
    cases h
    exact ⟨⟨_, rfl⟩, ⟨_, rfl⟩, ⟨_, rfl⟩, by rw [if_neg hc], fun hcc => absurd hcc hc⟩

/-- The loop from index `i` never changes entries below `i`. -/
theorem kloop_preserve (dt T : ℚ) (reset : Bool) (Qm Rm : Mat6)
    (t : List ℚ) (acc_lab : List Vec3q) :
    ∀ (m i : Nat) (s s' : KState),
      kloop dt T reset Qm Rm t acc_lab i m s = .ok s' →
      ∀ j, j < i → s'.sg[j]? = s.sg[j]? ∧ s'.Ps[j]? = s.Ps[j]? ∧
        s'.zs[j]? = s.zs[j]? := by
  intro m
  induction m with
  | zero =>
    intro i s s' h j hj
    cases h
    exact ⟨rfl, rfl, rfl⟩
  | succ m ih =>
    intro i s s' h j hj
    rw [kloop] at h
    rcases hst : kstep dt T reset Qm Rm t acc_lab i s with e | s1 <;> rw [hst] at h
    · cases h
    simp only at h
    obtain ⟨⟨v, hv⟩, ⟨P, hP⟩, ⟨z', hz'⟩, -, -⟩ :=
      kstep_shape dt T reset Qm Rm t acc_lab i s s1 hst
    obtain ⟨e1, e2, e3⟩ := ih (i+1) s1 s' h j (by omega)
    refine ⟨?_, ?_, ?_⟩
    · rw [e1, hv, List.getElem?_set_ne (by omega)]
    · rw [e2, hP, List.getElem?_set_ne (by omega)]
    · rw [e3, hz', List.getElem?_set_ne (by omega)]

/-- The loop preserves the lengths of the three lists. -/
theorem kloop_lengths (dt T : ℚ) (reset : Bool) (Qm Rm : Mat6)
    (t : List ℚ) (acc_lab : List Vec3q) :
    ∀ (m i : Nat) (s s' : KState),
      kloop dt T reset Qm Rm t acc_lab i m s = .ok s' →
      s'.sg.length = s.sg.length ∧ s'.Ps.length = s.Ps.length ∧
      s'.zs.length = s.zs.length := by
  intro m
  induction m with
  | zero =>
    intro i s s' h
    cases h
    exact ⟨rfl, rfl, rfl⟩
  | succ m ih =>
    intro i s s' h
    rw [kloop] at h
    rcases hst : kstep dt T reset Qm Rm t acc_lab i s with e | s1 <;> rw [hst] at h
    · cases h
    simp only at h
    obtain ⟨⟨v, hv⟩, ⟨P, hP⟩, ⟨z', hz'⟩, -, -⟩ :=
      kstep_shape dt T reset Qm Rm t acc_lab i s s1 hst
    obtain ⟨e1, e2, e3⟩ := ih (i+1) s1 s' h
    rw [e1, e2, e3, hv, hP, hz']
    simp [List.length_set]

/-- The `next_zero` recurrence at loop indices `k ≥ 1`. -/
theorem nzBefore_succ (T : ℚ) (t : List ℚ) (k : Nat) (hk : 1 ≤ k) :
    nzBefore T t (k+1) =
      if nzBefore T t k < t.getD k 0 then nzBefore T t k + T
      else nzBefore T t k := by
  rcases k with _ | j
  · omega
  · rfl

/-- With `reset` enabled and `next_zero` synchronized with `nzBefore`, every
step in the loop range whose timestamp exceeds its `next_zero` boundary ends
with exactly-zero state and covariance entries in the final history. -/
theorem kloop_reset_zeros (dt T : ℚ) (Qm Rm : Mat6) (t : List ℚ)
    (acc_lab : List Vec3q) :
    ∀ (m i : Nat) (s s' : KState), 1 ≤ i → s.nz = nzBefore T t i →
      kloop dt T true Qm Rm t acc_lab i m s = .ok s' →
      ∀ j, i ≤ j → j < i + m → nzBefore T t j < t.getD j 0 →
        (j < s.sg.length → s'.sg[j]? = some 0) ∧
        (j < s.Ps.length → s'.Ps[j]? = some 0) := by
  intro m
  induction m with
  | zero =>
    intro i s s' hi hnz h j hij hjm hcond
    omega
  | succ m ih =>
    intro i s s' hi hnz h j hij hjm hcond
    rw [kloop] at h
    rcases hst : kstep dt T true Qm Rm t acc_lab i s with e | s1 <;> rw [hst] at h
    · cases h
    simp only at h
    obtain ⟨⟨v, hv⟩, ⟨P, hP⟩, ⟨z', hz'⟩, hnz1, hzero⟩ :=
      kstep_shape dt T true Qm Rm t acc_lab i s s1 hst
    have hnz1' : s1.nz = nzBefore T t (i+1) := by
      rw [nzBefore_succ T t i hi, ← hnz, hnz1]
      simp
    rcases Nat.eq_or_lt_of_le hij with hji | hji
    · subst hji
      have hc : (true = true ∧ s.nz < t.getD i 0) :=
        ⟨rfl, by rw [hnz]; exact hcond⟩
      obtain ⟨hsg0, hP0⟩ := hzero hc
      obtain ⟨e1, e2, e3⟩ := kloop_preserve dt T true Qm Rm t acc_lab m (i+1)
        s1 s' h i (by omega)
      constructor
      · intro hlen
        rw [e1, hsg0, List.getElem?_set_self hlen]
      · intro hlen
        rw [e2, hP0, List.getElem?_set_self hlen]
    · have hrec := ih (i+1) s1 s' (by omega) hnz1' h j (by omega) (by omega) hcond
      constructor
      · intro hlen
        refine hrec.1 ?_
        rw [hv, List.length_set]
        exact hlen
      · intro hlen
        refine hrec.2 ?_
        rw [hP, List.length_set]
        exact hlen

/-- The boundary `nzBefore` is unchanged across a block of steps on which the reset
condition does not fire. -/
theorem nzBefore_const (T : ℚ) (t : List ℚ) (i : Nat) (hi : 1 ≤ i) :
    ∀ k, (∀ m', i < m' → m' < i + 1 + k → ¬(nzBefore T t m' < t.getD m' 0)) →
      nzBefore T t (i + 1 + k) = nzBefore T t (i + 1) := by
  intro k
  induction k with
  | zero => intro _; rfl
  | succ k ih =>
    intro hno
    have hstep : nzBefore T t (i + 1 + k + 1) = nzBefore T t (i + 1 + k) := by
      rw [nzBefore_succ T t (i + 1 + k) (by omega)]
      rw [if_neg (hno (i + 1 + k) (by omega) (by omega))]
    have : i + 1 + (k + 1) = i + 1 + k + 1 := by omega
    rw [this, hstep]
    exact ih (fun m' h1 h2 => hno m' h1 (by omega))

/-- C4: in a successful `kalman_filter` run with periodic zeroing enabled
(`reset=True`, period `T`): (a) at every step whose timestamp crosses the
current `next_zero` boundary (the boundaries advance by exactly `T` per
reset), the returned state entry AND covariance entry are exact zeros; and
(b) at the first step `j` whose timestamp exceeds the previous reset step's
timestamp by more than `T` (no boundary crossing in between), the state and
covariance are again exact zeros — the state is the zero vector at every
timestamp crossing a multiple of `T` after the previous reset. -/
theorem kalman_periodic_zeroing (t : List ℚ) (acc_lab : List Vec3q)
    (z : List Vec6q) (q r : Fin 6 → ℚ) (T : ℚ) (out : KState)
    (hrun : kalmanRun t acc_lab z q r true T = .ok out) :
    (∀ i, 1 ≤ i → i < t.length → nzBefore T t i < t.getD i 0 →
        out.sg[i]? = some 0 ∧ out.Ps[i]? = some 0) ∧
    (∀ i j, 1 ≤ i → i < j → j < t.length →
        nzBefore T t i < t.getD i 0 →
        (∀ m', i < m' → m' < j → ¬(nzBefore T t m' < t.getD m' 0)) →
        t.getD i 0 + T < t.getD j 0 →
        out.sg[j]? = some 0 ∧ out.Ps[j]? = some 0) := by
  rw [kalmanRun] at hrun
  by_cases hzl : z.length < t.length
  · rw [if_pos hzl] at hrun
    cases hrun
  rw [if_neg hzl] at hrun
  have hmain : ∀ j, 1 ≤ j → j < t.length → nzBefore T t j < t.getD j 0 →
      out.sg[j]? = some 0 ∧ out.Ps[j]? = some 0 := by
    intro j h1 h2 hcond
    have hz := kloop_reset_zeros (meanDiff t) T (Matrix.diagonal q)
      (Matrix.diagonal r) t acc_lab (t.length - 1) 1 _ out (le_refl 1) rfl hrun
      j h1 (by omega) hcond
    exact ⟨hz.1 (by simpa using h2), hz.2 (by simpa using h2)⟩
  refine ⟨fun i h1 h2 hcond => hmain i h1 h2 hcond, ?_⟩
  intro i j h1 hij hj hcondi hno hcross
  apply hmain j (by omega) hj
  have hstep : nzBefore T t (i+1) = nzBefore T t i + T := by
    rw [nzBefore_succ T t i h1, if_pos hcondi]
  have hconst : nzBefore T t j = nzBefore T t (i+1) := by
    have hk : i + 1 + (j - (i+1)) = j := by omega
    conv_lhs => rw [← hk]
    exact nzBefore_const T t i h1 (j - (i+1))
      (fun m' hm1 hm2 => hno m' hm1 (by omega))
  rw [hconst, hstep]
  linarith [hcondi, hcross]

/-- Witness for C4: a concrete 2-sample run with `reset` enabled; the first
step crosses the initial boundary and its state and covariance entries are
zeroed. -/
theorem kalman_periodic_zeroing_witness :
    ∃ out : KState,
      kalmanRun [0, 1] [0, 0] [0, 0] 0 (fun _ => 1) true 1 = .ok out ∧
      (out.sg[1]? = some 0 ∧ out.Ps[1]? = some 0) := by
  have hex : ∃ out, kalmanRun [0, 1] [0, 0] [0, 0] 0 (fun _ => 1) true 1 =
      .ok out := by
    simp only [kalmanRun]
    simp only [List.length_cons, List.length_nil]
    have h2 : (0 + 1 + 1 : ℕ) = 2 := rfl
    simp only [h2]
    simp only [List.mapIdx_cons, List.mapIdx_nil, List.replicate_succ,
      List.replicate_zero]
    simp
    have hdiag : Matrix.diagonal (0 : Fin 6 → ℚ) = (0 : Mat6) := Matrix.diagonal_zero
    have hdiag1 : Matrix.diagonal (fun _ : Fin 6 => (1:ℚ)) = (1 : Mat6) :=
      Matrix.diagonal_one
    simp only [hdiag, hdiag1]
    rw [kloop_one]
    have hinv1 : inv6 ((Fmat (meanDiff ([0, 1] : List ℚ)) *
        ((KState.mk [0, 0] [0, 0] [fun _ => 0, fun _ => 0] (-1)).Ps.getD (1-1) 0) *
        (Fmat (meanDiff ([0, 1] : List ℚ)))ᵀ + 0) + 1) = some 1 := by
      have hmat : (Fmat (meanDiff ([0, 1] : List ℚ)) *
          ((KState.mk [0, 0] [0, 0] [fun _ => 0, fun _ => 0] (-1)).Ps.getD (1-1) 0) *
          (Fmat (meanDiff ([0, 1] : List ℚ)))ᵀ + 0) + 1 = (1 : Mat6) := by
        simp
      rw [hmat]
      exact inv6_one
    rw [kstep_reset (meanDiff [0, 1]) 1 0 1 [0, 1] [0, 0] 1
      ⟨[0, 0], [0, 0], [fun _ => 0, fun _ => 0], -1⟩ 0 (fun _ => 0) 1 rfl rfl
      hinv1 (by norm_num)]
    exact ⟨_, rfl⟩
  obtain ⟨out, hrun⟩ := hex
  refine ⟨out, hrun, ?_⟩
  exact (kalman_periodic_zeroing [0, 1] [0, 0] [0, 0] 0 (fun _ => 1) 1 out
    hrun).1 1 (le_refl 1) (by norm_num) (by norm_num [nzBefore])

end KalmanReset

section KalmanZMutation

/-- The exact measurement row a successful loop step writes back into `z`:
for `i > 1` the velocity components are overwritten with the previous state
estimate's velocity components. -/
theorem kstep_zs (dt T : ℚ) (reset : Bool) (Qm Rm : Mat6)
    (t : List ℚ) (acc_lab : List Vec3q) (i : Nat) (s s' : KState) (zi : Vec6q)
    (hz : s.zs[i]? = some zi)
    (h : kstep dt T reset Qm Rm t acc_lab i s = .ok s') :
    s'.zs = s.zs.set i
      (if 1 < i then
        (fun j : Fin 6 => if j.val < 3 then zi j else s.sg.getD (i-1) 0 j)
      else zi) := by
  rw [kstep] at h
  rcases ha : acc_lab[i]? with _ | a <;> rw [ha] at h
  · cases h
  rw [hz] at h
  simp only at h
  rcases hinv : inv6 (Fmat dt * s.Ps.getD (i-1) 0 * (Fmat dt)ᵀ + Qm + Rm)
    with _ | Minv <;> rw [hinv] at h
  · cases h
  simp only at h
  split at h <;> cases h <;> rfl

/-- Final contents of the measurement list over the loop range: each row in
range keeps its position components, and for steps `i > 1` its velocity
components become the previous state estimate's; rows past the range are
untouched. -/
theorem kloop_zs (dt T : ℚ) (reset : Bool) (Qm Rm : Mat6)
    (t : List ℚ) (acc_lab : List Vec3q) :
    ∀ (m i : Nat) (s s' : KState), 1 ≤ i →
      kloop dt T reset Qm Rm t acc_lab i m s = .ok s' →
      (∀ k, i + m ≤ k → s'.zs[k]? = s.zs[k]?) ∧
      (∀ k zk, i ≤ k → k < i + m → s.zs[k]? = some zk →
        s'.zs[k]? = some (if 1 < k then
          (fun j : Fin 6 => if j.val < 3 then zk j else s'.sg.getD (k-1) 0 j)
        else zk)) := by
  intro m
  induction m with
  | zero =>
    intro i s s' hi h
    cases h
    exact ⟨fun k _ => rfl, fun k zk hik hkm => by omega⟩
  | succ m ih =>
    intro i s s' hi h
    rw [kloop] at h
    rcases hst : kstep dt T reset Qm Rm t acc_lab i s with e | s1 <;> rw [hst] at h
    · cases h
    simp only at h
    obtain ⟨⟨v, hv⟩, ⟨P, hP⟩, ⟨z1, hz1⟩, -, -⟩ :=
      kstep_shape dt T reset Qm Rm t acc_lab i s s1 hst
    obtain ⟨huntouched, hrange⟩ := ih (i+1) s1 s' (by omega) h
    constructor
    · intro k hk
      rw [huntouched k (by omega), hz1, List.getElem?_set_ne (by omega)]
    · intro k zk hik hkm hzk
      rcases Nat.eq_or_lt_of_le hik with hki | hki
      · subst hki
        have hilen : i < s.zs.length := by
          by_contra hge
          rw [List.getElem?_eq_none (by omega)] at hzk
          cases hzk
        have hz1k : s1.zs = s.zs.set i
            (if 1 < i then
              (fun j : Fin 6 => if j.val < 3 then zk j else s.sg.getD (i-1) 0 j)
            else zk) :=
          kstep_zs dt T reset Qm Rm t acc_lab i s s1 zk hzk hst
        have hsg_pres : s'.sg.getD (i-1) 0 = s.sg.getD (i-1) 0 := by
          obtain ⟨e1, -, -⟩ := kloop_preserve dt T reset Qm Rm t acc_lab m (i+1)
            s1 s' h (i-1) (by omega)
          rw [List.getD_eq_getElem?_getD, List.getD_eq_getElem?_getD, e1, hv,
            List.getElem?_set_ne (by omega)]
        obtain ⟨e1, e2, e3⟩ := kloop_preserve dt T reset Qm Rm t acc_lab m (i+1)
          s1 s' h i (by omega)
        rw [e3, hz1k, List.getElem?_set_self (by simpa using hilen), hsg_pres]
      · have hzk1 : s1.zs[k]? = some zk := by
          rw [hz1, List.getElem?_set_ne (by omega), hzk]
        exact hrange k zk (by omega) (by omega) hzk1

end KalmanZMutation

section KalmanZMain

/-- A concrete successful run whose caller-visible measurement list changes:
`z = [[1,…,1],[1,…,1]]` comes back with its velocity components zeroed. -/
theorem kalman_c10_run :
    ∃ out : KState,
      kalmanRun [0, 1] [0, 0] [(fun _ => 1), (fun _ => 1)] 0 (fun _ => 1)
        false 1 = .ok out ∧
      out.zs[0]? = some (fun j : Fin 6 => if (j : ℕ) < 3 then (1:ℚ) else 0) := by
  simp only [kalmanRun]
  simp only [List.length_cons, List.length_nil]
  have h2 : (0 + 1 + 1 : ℕ) = 2 := rfl
  simp only [h2]
  simp only [List.mapIdx_cons, List.mapIdx_nil, List.replicate_succ,
    List.replicate_zero]
  simp
  have hdiag : Matrix.diagonal (0 : Fin 6 → ℚ) = (0 : Mat6) := Matrix.diagonal_zero
  simp only [hdiag]
  rw [kloop_one]
  have hinv1 : inv6 ((Fmat (meanDiff ([0, 1] : List ℚ)) *
      ((KState.mk [0, 0] [0, 0]
        [fun j : Fin 6 => if (j : ℕ) < 3 then (1:ℚ) else 0,
         fun j : Fin 6 => if (j : ℕ) < 3 then (1:ℚ) else 0] (-1)).Ps.getD (1-1) 0) *
      (Fmat (meanDiff ([0, 1] : List ℚ)))ᵀ + 0) + 1) = some 1 := by
    have hmat : (Fmat (meanDiff ([0, 1] : List ℚ)) *
        ((KState.mk [0, 0] [0, 0]
          [fun j : Fin 6 => if (j : ℕ) < 3 then (1:ℚ) else 0,
           fun j : Fin 6 => if (j : ℕ) < 3 then (1:ℚ) else 0] (-1)).Ps.getD (1-1) 0) *
        (Fmat (meanDiff ([0, 1] : List ℚ)))ᵀ + 0) + 1 = (1 : Mat6) := by
      simp
    rw [hmat]
    exact inv6_one
  rw [kstep_update (meanDiff [0, 1]) 1 false 0 1 [0, 1] [0, 0] 1
    ⟨[0, 0], [0, 0],
      [fun j : Fin 6 => if (j : ℕ) < 3 then (1:ℚ) else 0,
       fun j : Fin 6 => if (j : ℕ) < 3 then (1:ℚ) else 0], -1⟩ 0
    (fun j : Fin 6 => if (j : ℕ) < 3 then (1:ℚ) else 0) 1 rfl rfl hinv1
    (by simp)]
  refine ⟨_, rfl, ?_⟩
  rw [List.getElem?_set_ne (by omega)]
  rfl

/-- C10: for every successful `kalman_filter` run, the caller's measurement
list `z` is mutated in place: every row in range keeps its position
components but has its velocity components (indices 3-5) overwritten — with
zeros for rows 0 and 1 (the pre-loop zeroing), and with the previous step's
state-estimate velocities for every row `i > 1`; consequently there are calls
after which the caller's `z` differs from what was passed in (demonstrated by
a concrete run). -/
theorem kalman_mutates_z (t : List ℚ) (acc_lab : List Vec3q) (z : List Vec6q)
    (q r : Fin 6 → ℚ) (reset : Bool) (T : ℚ) (out : KState)
    (hrun : kalmanRun t acc_lab z q r reset T = .ok out) :
    (∀ i zi, i < t.length → z[i]? = some zi →
      out.zs[i]? = some (if 1 < i then
        (fun j : Fin 6 => if (j : ℕ) < 3 then zi j else out.sg.getD (i-1) 0 j)
      else (fun j : Fin 6 => if (j : ℕ) < 3 then zi j else 0))) ∧
    (∃ out' : KState,
      kalmanRun [0, 1] [0, 0] [(fun _ => 1), (fun _ => 1)] 0 (fun _ => 1)
        false 1 = .ok out' ∧
      out'.zs ≠ [(fun _ => 1), (fun _ => 1)]) := by
  constructor
  · rw [kalmanRun] at hrun
    by_cases hzl : z.length < t.length
    · rw [if_pos hzl] at hrun
      cases hrun
    rw [if_neg hzl] at hrun
    intro i zi hi hzi
    have hz0 : (z.mapIdx (fun i' zi' =>
        if i' < t.length then (fun j : Fin 6 => if (j : ℕ) < 3 then zi' j else 0)
        else zi'))[i]? =
        some (fun j : Fin 6 => if (j : ℕ) < 3 then zi j else 0) := by
      rw [List.getElem?_mapIdx, hzi]
      simp [hi]
    rcases Nat.eq_zero_or_pos i with hi0 | hip
    · subst hi0
      obtain ⟨-, -, e3⟩ := kloop_preserve (meanDiff t) T reset
        (Matrix.diagonal q) (Matrix.diagonal r) t acc_lab (t.length - 1) 1 _
        out hrun 0 (by omega)
      rw [e3, hz0]
      simp
    · have hr := (kloop_zs (meanDiff t) T reset (Matrix.diagonal q)
        (Matrix.diagonal r) t acc_lab (t.length - 1) 1 _ out (le_refl 1)
        hrun).2 i (fun j : Fin 6 => if (j : ℕ) < 3 then zi j else 0) hip
        (by omega) hz0
      rw [hr]
      by_cases h1i : 1 < i
      · simp only [if_pos h1i]
        refine congrArg some (funext fun j => ?_)
        by_cases hj : (j : ℕ) < 3 <;> simp [hj]
      · simp only [if_neg h1i]
  · obtain ⟨out', hrun', hz00⟩ := kalman_c10_run
    refine ⟨out', hrun', fun heq => ?_⟩
    rw [heq] at hz00
    have h1 : (fun _ : Fin 6 => (1:ℚ)) =
        (fun j : Fin 6 => if (j : ℕ) < 3 then (1:ℚ) else 0) := by
      have := hz00
      simpa using this
    have := congrFun h1 ⟨3, by omega⟩
    norm_num at this

/-- Witness for C10 at the concrete run of `kalman_c10_run`. -/
theorem kalman_mutates_z_witness :
    ∃ out : KState,
      kalmanRun [0, 1] [0, 0] [(fun _ => 1), (fun _ => 1)] 0 (fun _ => 1)
        false 1 = .ok out ∧
      ((∀ i zi, i < ([0, 1] : List ℚ).length →
        ([(fun _ => 1), (fun _ => 1)] : List Vec6q)[i]? = some zi →
        out.zs[i]? = some (if 1 < i then
          (fun j : Fin 6 => if (j : ℕ) < 3 then zi j else out.sg.getD (i-1) 0 j)
        else (fun j : Fin 6 => if (j : ℕ) < 3 then zi j else 0))) ∧
      (∃ out' : KState,
        kalmanRun [0, 1] [0, 0] [(fun _ => 1), (fun _ => 1)] 0 (fun _ => 1)
          false 1 = .ok out' ∧
        out'.zs ≠ [(fun _ => 1), (fun _ => 1)])) := by
  obtain ⟨out, hrun, -⟩ := kalman_c10_run
  exact ⟨out, hrun,
    kalman_mutates_z [0, 1] [0, 0] [(fun _ => 1), (fun _ => 1)] 0 (fun _ => 1)
      false 1 out hrun⟩

end KalmanZMain

/-! ## Orientation filter (`apply_ahrs`, `src/utils.py` 174-280) and the
calibration evaluator (`msqError`, 284-320, with `calibrate` 328-338 and
`idx_filter` 157-170)

Embedded over `ℝ`.  The external `ahrs` library's numerical kernels
(`Madgwick.updateIMU`, `Madgwick.updateMARG`, the `Quaternion` constructor
and `Quaternion.rotate`) are abstracted as the `AhrsLib` parameter record;
everything in `src/utils.py` itself is translated.  numpy index errors on
reused workspace arrays are modelled as `IndexError`; the `assert`
statements as `AssertionError`. -/

/-- The external `ahrs`-library operations used by `apply_ahrs`:
`updateIMU beta freq q gyro acc`, `updateMARG beta freq q gyro acc mag`,
the `Quaternion` constructor and `Quaternion.rotate`. -/
structure AhrsLib where
  updateIMU : ℝ → ℝ → Quat4 → Vec3f → Vec3f → Quat4
  updateMARG : ℝ → ℝ → Quat4 → Vec3f → Vec3f → Vec3f → Quat4
  mkQuat : Quat4 → Quat4
  rotate : Quat4 → Vec3f → Vec3f

/-- The `workspace` dictionary: the keys this code base ever stores.  A
missing key is `none`. -/
structure Workspace where
  Q : Option (List Quat4) := none
  Qquat : Option (List Quat4) := none
  acc_lab : Option (List Vec3f) := none
  state : Option (List Vec6f) := none
  acc_scratch : Option (List Vec3f) := none

/-- Checked numpy-style array read: `IndexError` when out of range. -/
def getE {α : Type} (l : List α) (i : Nat) : Except String α :=
  match l[i]? with
  | some a => .ok a
  | none => .error "IndexError"

/-- Checked numpy-style array element write. -/
def setE {α : Type} (l : List α) (i : Nat) (a : α) : Except String (List α) :=
  if i < l.length then .ok (l.set i a) else .error "IndexError"

/-- Euclidean norm `np.linalg.norm` of a coordinate list. -/
noncomputable def norm4 (l : List ℝ) : ℝ :=
  Real.sqrt ((l.map (fun x => x^2)).sum)

/-- The mutable arrays and `next_zero` carried through the `apply_ahrs`
loop. -/
structure AhrsCarry where
  Qa : List Quat4
  Qq : List Quat4
  accL : List Vec3f
  st : List Vec6f
  nz : ℝ

/-- One iteration of the `apply_ahrs` loop (lines 256-277) at step `t`:
Madgwick quaternion update (written to `Q[t]` only in `"IMU"`/`"MARG"` mode),
`Q_quat[t]`, the gravity-compensated lab-frame acceleration `acc_lab[t]`,
and, when `position` is set, the kinematic state update from `acc_lab[t-1]`
with periodic re-zeroing at `ts[t] > next_zero`. -/
noncomputable def ahrsStep (lib : AhrsLib) (gyro acc mag : List Vec3f) (ts : List ℝ)
    (gv : Vec3f) (position : Bool) (zero_period dt freq betaval : ℝ)
    (filterMode : String) (t : Nat) (c : AhrsCarry) :
    Except String AhrsCarry :=
  match getE c.Qa (t-1) with
  | .error e => .error e
  | .ok qprev =>
    let write : Option Quat4 :=
      if filterMode = "IMU" then
        some (lib.updateIMU betaval freq qprev (gyro.getD t 0) (acc.getD t 0))
      else if filterMode = "MARG" then
        some (lib.updateMARG betaval freq qprev (gyro.getD t 0) (acc.getD t 0)
          (mag.getD t 0))
      else none
    match (match write with
           | some qnew => setE c.Qa t qnew
           | none => .ok c.Qa) with
    | .error e => .error e
    | .ok Qa1 =>
      match getE Qa1 t with
      | .error e => .error e
      | .ok qt =>
        match setE c.Qq t (lib.mkQuat qt) with
        | .error e => .error e
        | .ok Qq1 =>
          match setE c.accL t (lib.rotate qt (acc.getD t 0) - gv) with
          | .error e => .error e
          | .ok accL1 =>
            if position then
              match getE accL1 (t-1) with
              | .error e => .error e
              | .ok aprev =>
                match getE c.st (t-1) with
                | .error e => .error e
                | .ok sprev =>
                  match setE c.st t
                      ((Fmat dt).mulVec sprev + (Bmat dt).mulVec aprev) with
                  | .error e => .error e
                  | .ok st1 =>
                    if ts.getD t 0 > c.nz then
                      match setE st1 t 0 with
                      | .error e => .error e
                      | .ok st2 =>
                        .ok ⟨Qa1, Qq1, accL1, st2, ts.getD t 0 + zero_period⟩
                    else .ok ⟨Qa1, Qq1, accL1, st1, c.nz⟩
            else .ok ⟨Qa1, Qq1, accL1, c.st, c.nz⟩

/-- The `for t in range(1, num_samples)` loop of `apply_ahrs`. -/
noncomputable def ahrsLoop (lib : AhrsLib) (gyro acc mag : List Vec3f) (ts : List ℝ)
    (gv : Vec3f) (position : Bool) (zero_period dt freq betaval : ℝ)
    (filterMode : String) :
    Nat → Nat → AhrsCarry → Except String AhrsCarry
  | _, 0, c => .ok c
  | t, m+1, c =>
    match ahrsStep lib gyro acc mag ts gv position zero_period dt freq betaval
        filterMode t c with
    | .error e => .error e
    | .ok c' =>
      ahrsLoop lib gyro acc mag ts gv position zero_period dt freq betaval
        filterMode (t+1) m c'

/-- The allocation-and-loop core of `apply_ahrs` (lines 200-277), as a
function of the four workspace arrays it reads (`Q`, `Q_quat`, `acc_lab`,
`state`; a missing key allocates a fresh array of `num_samples` rows). -/
noncomputable def ahrsCompute (lib : AhrsLib) (gyro acc mag : List Vec3f)
    (ts : List ℝ) (q0 : List ℝ) (g : List ℝ) (position : Bool)
    (zero_period : ℝ) (filterMode : String) (betaval : ℝ)
    (wQ wQq : Option (List Quat4)) (wacc : Option (List Vec3f))
    (wst : Option (List Vec6f)) : Except String AhrsCarry :=
  let q0n : Quat4 := fun i => q0.getD i 0 / norm4 q0
  let gv : Vec3f := fun i => g.getD i 0
  let dt := meanDiff ts
  let n := ts.length
  match setE (wQ.getD (List.replicate n q0n)) 0 q0n with
  | .error e => .error e
  | .ok Qa =>
    match setE (wQq.getD (List.replicate n (lib.mkQuat q0n))) 0
        (lib.mkQuat q0n) with
    | .error e => .error e
    | .ok Qq =>
      ahrsLoop lib gyro acc mag ts gv position zero_period dt (1/dt) betaval
        filterMode 1 (n-1)
        ⟨Qa, Qq, wacc.getD (List.replicate n 0),
          (if position then wst.getD (List.replicate n 0) else wst.getD []),
          zero_period⟩

/-- Function `apply_ahrs(gyro, acc, mag, ts, q0, g, position, zero_period, workspace,
filter, betaval)` (lines 174-280): input-length validation first, `q0`
normalization and shape checks, then `ahrsCompute` on the workspace arrays,
returning the histories together with the updated workspace.  (The `reset`
parameter of the source is unused there and omitted; the `np.float` coercion
`ValueError` branches concern dtype coercion and are outside this
real-valued model.) -/
noncomputable def apply_ahrs (lib : AhrsLib) (gyro acc mag : List Vec3f)
    (ts : List ℝ) (q0 : List ℝ) (g : List ℝ) (position : Bool)
    (zero_period : ℝ) (ws : Workspace) (filterMode : String) (betaval : ℝ) :
    Except String ((List Vec3f × List Quat4 × Option (List Vec6f)) × Workspace) :=
  if gyro.length = acc.length then
    if acc.length = mag.length then
      if mag.length = ts.length then
        if q0.length = 4 then
          if g.length = 3 then
            match ahrsCompute lib gyro acc mag ts q0 g position zero_period
                filterMode betaval ws.Q ws.Qquat ws.acc_lab ws.state with
            | .error e => .error e
            | .ok c =>
              .ok ((c.accL, c.Qa, if position then some c.st else none),
                { Q := some c.Qa, Qquat := some c.Qq,
                  acc_lab := some c.accL,
                  state := if position then some c.st else ws.state,
                  acc_scratch := ws.acc_scratch })
          else .error "AssertionError: Input g must be length 3"
        else .error "AssertionError: Input q0 must be length 4"
      else .error "AssertionError: len(mag) == len(ts)"
    else .error "AssertionError: len(acc) == len(mag)"
  else .error "AssertionError: len(gyro) == len(acc)"

/-- Function `calibrate(data, params)` (lines 328-338): the scale-bias operation
`data.dot(np.diag(scale)) + bias`; `params=None` returns the data
unchanged. -/
def calibrate (data : List Vec3f) (params : Option (List ℝ)) : List Vec3f :=
  match params with
  | none => data
  | some p =>
    data.map (fun v => fun i : Fin 3 => v i * p.getD i.val 0 + p.getD (i.val + 3) 0)

/-- The stored best-known calibration constant (lines 323-327). -/
def recent_cal : List ℝ :=
  [1.00019457, 1.00488652, 0.98081785,
   0.00157861, 0.03279509, 0.19761574,
   0.99666972, 0.00134338, 0.0370082, -0.02798724]

open Classical in
/-- Function `idx_filter(t, data, intervals)` (lines 157-170): keep exactly the
samples whose time lies strictly inside one of the intervals. -/
noncomputable def idx_filter (t : List ℝ) (data : List Vec3f)
    (intervals : List (ℝ × ℝ)) : List ℝ × List Vec3f :=
  (((t.zip data).filter
      (fun p => decide (∃ iv ∈ intervals, iv.1 < p.1 ∧ p.1 < iv.2))).map Prod.fst,
   ((t.zip data).filter
      (fun p => decide (∃ iv ∈ intervals, iv.1 < p.1 ∧ p.1 < iv.2))).map Prod.snd)

/-- Mean `np.mean` of the squared entries of an N×3 array. -/
noncomputable def meanSq3 (l : List Vec3f) : ℝ :=
  ((l.map (fun v => v 0^2 + v 1^2 + v 2^2)).sum) / (3 * l.length)

/-- Function `msqError(params, intervals, acc, gyro, mag, ts, g, workspace)`
(lines 284-320): scale-bias calibrate into `workspace['acc_scratch']`, run
the orientation filter on it (seeded with `q0 = params[6:]`, with the
default `position=False`, `zero_period=0.300`, `filter="IMU"`,
`betaval=0.1`), restrict to the quiet intervals, return `3*np.mean(sq)`. -/
noncomputable def msqError (lib : AhrsLib) (params : List ℝ)
    (intervals : List (ℝ × ℝ)) (acc gyro mag : List Vec3f) (ts : List ℝ)
    (g : List ℝ) (ws : Workspace) : Except String ℝ :=
  let ws1 : Workspace := { ws with acc_scratch := some (calibrate acc (some params)) }
  match apply_ahrs lib gyro (ws1.acc_scratch.getD []) mag ts (params.drop 6) g
      false (3/10) ws1 "IMU" (1/10) with
  | .error e => .error e
  | .ok r =>
    let ws2 : Workspace := { r.2 with acc_scratch := some r.1.1 }
    .ok (3 * meanSq3 (idx_filter ts (ws2.acc_scratch.getD []) intervals).2)

section AhrsValidation

/-- A concrete instantiation of the external `ahrs` operations, used for
concrete runs: the quaternion update returns the previous quaternion and
rotation is the identity. -/
def demoLib : AhrsLib :=
  ⟨fun _ _ q _ _ => q, fun _ _ q _ _ _ => q, fun q => q, fun _ v => v⟩

/-- C7: whenever the gyro, accelerometer, magnetometer and timestamp
sequences do not all have equal length, `apply_ahrs` raises before any
filter step runs and produces no output history (the length `assert`s are
the first statements of the function). -/
theorem apply_ahrs_length_mismatch (lib : AhrsLib) (gyro acc mag : List Vec3f)
    (ts : List ℝ) (q0 g : List ℝ) (position : Bool) (zp : ℝ) (ws : Workspace)
    (fm : String) (beta : ℝ)
    (h : ¬(gyro.length = acc.length ∧ acc.length = mag.length ∧
           mag.length = ts.length)) :
    ∃ e, apply_ahrs lib gyro acc mag ts q0 g position zp ws fm beta =
      .error e := by
  simp only [apply_ahrs]
  by_cases h1 : gyro.length = acc.length
  · rw [if_pos h1]
    by_cases h2 : acc.length = mag.length
    · rw [if_pos h2]
      by_cases h3 : mag.length = ts.length
      · exact absurd ⟨h1, h2, h3⟩ h
      · rw [if_neg h3]
        exact ⟨_, rfl⟩
    · rw [if_neg h2]
      exact ⟨_, rfl⟩
  · rw [if_neg h1]
    exact ⟨_, rfl⟩

/-- Witness for C7: one sample of gyro data against empty accelerometer
data. -/
theorem apply_ahrs_length_mismatch_witness :
    ¬((([fun _ => 0] : List Vec3f).length = ([] : List Vec3f).length) ∧
      (([] : List Vec3f).length = ([] : List Vec3f).length) ∧
      (([] : List Vec3f).length = ([] : List ℝ).length)) ∧
    ∃ e, apply_ahrs demoLib [fun _ => 0] [] [] [] [1, 0, 0, 0] [0, 0, 0] false
      (3/10) {} "IMU" (1/10) = .error e := by
  refine ⟨by simp, ?_⟩
  exact apply_ahrs_length_mismatch demoLib [fun _ => 0] [] [] [] [1, 0, 0, 0]
    [0, 0, 0] false (3/10) {} "IMU" (1/10) (by simp)

end AhrsValidation

section MsqErrorSpec

/-- The `acc_scratch` workspace entry is never read by `apply_ahrs`: calling
with it set only changes the `acc_scratch` slot of the returned workspace. -/
theorem apply_ahrs_acc_scratch_irrel (lib : AhrsLib) (gyro acc mag : List Vec3f)
    (ts : List ℝ) (q0 g : List ℝ) (position : Bool) (zp : ℝ) (fm : String)
    (beta : ℝ) (x : Option (List Vec3f)) (ws : Workspace) :
    apply_ahrs lib gyro acc mag ts q0 g position zp
        { ws with acc_scratch := x } fm beta =
      (apply_ahrs lib gyro acc mag ts q0 g position zp ws fm beta).map
        (fun r => (r.1, { r.2 with acc_scratch := x })) := by
  obtain ⟨wQ, wQq, wacc, wst, wscr⟩ := ws
  simp only [apply_ahrs]
  split_ifs <;> try rfl
  all_goals
    rcases h : ahrsCompute lib gyro acc mag ts q0 g position zp fm beta
        wQ wQq wacc wst with e | c <;>
      simp [h, Except.map]

/-- C6: `msqError` (called with a fresh workspace) equals exactly: apply the
scale-bias calibration to the raw accelerometer stream, run the orientation
filter on it seeded with `q0 = params[6:]` (defaults `position=False`,
`zero_period=0.3`, `"IMU"`, `beta=0.1`), restrict the resulting lab-frame
acceleration to the quiet intervals, and return 3 times the mean of its
squares. -/
theorem msqError_spec (lib : AhrsLib) (params : List ℝ)
    (intervals : List (ℝ × ℝ)) (acc gyro mag : List Vec3f) (ts : List ℝ)
    (g : List ℝ) :
    msqError lib params intervals acc gyro mag ts g {} =
      (apply_ahrs lib gyro (calibrate acc (some params)) mag ts (params.drop 6)
        g false (3/10) {} "IMU" (1/10)).map
        (fun r => 3 * meanSq3 (idx_filter ts r.1.1 intervals).2) := by
  simp only [msqError, Option.getD_some]
  rw [apply_ahrs_acc_scratch_irrel lib gyro (calibrate acc (some params)) mag
    ts (params.drop 6) g false (3/10) "IMU" (1/10)
    (some (calibrate acc (some params))) {}]
  rcases h : apply_ahrs lib gyro (calibrate acc (some params)) mag ts
      (params.drop 6) g false (3/10) {} "IMU" (1/10) with e | r <;>
    simp [h, Except.map]

end MsqErrorSpec

section DegenerateGeometry

/-- C8 counterexample: `subangle` on a zero-norm vector does NOT produce a
special-cased result via explicit branching — the source computes
`arccos(dot/(norm*norm))` unconditionally, and with a zero denominator the
IEEE arithmetic yields `nan` (modelled as `none`): there is no (real) result
at all, refuting the claimed special-cased branch for the angle function. -/
theorem subangle_zero_norm_nan : subangle ![0, 0, 0] ![1, 0, 0] = none := by
  have h : norm3 ![0, 0, 0] = 0 := by
    simp [norm3]
  simp [subangle, h]

/-- Zero-norm columns make the misalignment cost vanish (cross products with
the zero vector are zero), with no special-case branch and no failure. -/
theorem axb2_zero_left (n : ℕ) (b : List Vec3f) :
    axb2 (List.replicate n 0) b = 0 := by
  induction n generalizing b with
  | zero => rfl
  | succ n ih =>
    cases b with
    | nil => rfl
    | cons bh bt =>
      have iht := ih bt
      simp only [axb2, List.replicate_succ, List.zip_cons_cons, List.map_cons,
        List.sum_cons] at iht ⊢
      rw [iht]
      simp [cross3]

/-- C8 (amended): the exactly-zero rotation vector passed to the exponential
map IS handled locally by an explicit branch returning the identity (not
fatal).  Zero-norm vectors passed to `subangle` are not fatal either, but are
NOT special-cased: the unconditional formula produces an undefined (`nan`)
value, modelled as `none`.  Zero-norm columns passed to the misalignment cost
yield zero cost, again with no branching and no failure. -/
theorem degenerate_geometry_handling :
    R 0 = 1 ∧
    (∀ u v : Vec3f, norm3 u * norm3 v = 0 → subangle u v = none) ∧
    (∀ (n : ℕ) (b : List Vec3f), axb2 (List.replicate n 0) b = 0) := by
  refine ⟨by simp [R], fun u v h => ?_, axb2_zero_left⟩
  simp [subangle, h]

/-- Witness for C8 (amended) at `u = 0`, `v = e₁`. -/
theorem degenerate_geometry_handling_witness :
    (norm3 ![0, 0, 0] * norm3 ![1, 0, 0] = 0) ∧
    subangle ![0, 0, 0] ![1, 0, 0] = none := by
  have h : norm3 ![0, 0, 0] * norm3 ![1, 0, 0] = 0 := by
    have h0 : norm3 ![0, 0, 0] = 0 := by
      simp [norm3]
    rw [h0, zero_mul]
  exact ⟨h, degenerate_geometry_handling.2.1 ![0, 0, 0] ![1, 0, 0] h⟩

end DegenerateGeometry

section SharedWorkspace

/-- AHRS loop exit. -/
theorem ahrsLoop_zero (lib : AhrsLib) (gyro acc mag : List Vec3f)
    (ts : List ℝ) (gv : Vec3f) (position : Bool) (zp dt freq beta : ℝ)
    (fm : String) (t : Nat) (c : AhrsCarry) :
    ahrsLoop lib gyro acc mag ts gv position zp dt freq beta fm t 0 c =
      .ok c := rfl

/-- One remaining AHRS loop iteration. -/
theorem ahrsLoop_one (lib : AhrsLib) (gyro acc mag : List Vec3f)
    (ts : List ℝ) (gv : Vec3f) (position : Bool) (zp dt freq beta : ℝ)
    (fm : String) (t : Nat) (c : AhrsCarry) :
    ahrsLoop lib gyro acc mag ts gv position zp dt freq beta fm t 1 c =
      match ahrsStep lib gyro acc mag ts gv position zp dt freq beta fm t c with
      | .error e => .error e
      | .ok c' => .ok c' := rfl

/-- Two remaining AHRS loop iterations. -/
theorem ahrsLoop_two (lib : AhrsLib) (gyro acc mag : List Vec3f)
    (ts : List ℝ) (gv : Vec3f) (position : Bool) (zp dt freq beta : ℝ)
    (fm : String) (t : Nat) (c : AhrsCarry) :
    ahrsLoop lib gyro acc mag ts gv position zp dt freq beta fm t 2 c =
      match ahrsStep lib gyro acc mag ts gv position zp dt freq beta fm t c with
      | .error e => .error e
      | .ok c' =>
        match ahrsStep lib gyro acc mag ts gv position zp dt freq beta fm
            (t+1) c' with
        | .error e => .error e
        | .ok c'' => .ok c'' := rfl

/-- A successful `"IMU"`-mode step without position tracking, written out. -/
theorem ahrsStep_imu (lib : AhrsLib) (gyro acc mag : List Vec3f)
    (ts : List ℝ) (gv : Vec3f) (zp dt freq beta : ℝ) (t : Nat) (c : AhrsCarry)
    (qprev : Quat4) (hq : c.Qa[t-1]? = some qprev)
    (hlt : t < c.Qa.length) (hltq : t < c.Qq.length) (hlta : t < c.accL.length) :
    ahrsStep lib gyro acc mag ts gv false zp dt freq beta "IMU" t c =
      .ok ⟨c.Qa.set t
            (lib.updateIMU beta freq qprev (gyro.getD t 0) (acc.getD t 0)),
          c.Qq.set t (lib.mkQuat
            (lib.updateIMU beta freq qprev (gyro.getD t 0) (acc.getD t 0))),
          c.accL.set t (lib.rotate
            (lib.updateIMU beta freq qprev (gyro.getD t 0) (acc.getD t 0))
            (acc.getD t 0) - gv),
          c.st, c.nz⟩ := by
  simp [ahrsStep, getE, setE, hq, hlt, hltq, hlta, List.getElem?_set_self hlt]

end SharedWorkspace

section SharedWorkspaceLeak

/-- The demo library's quaternion update returns the previous quaternion. -/
theorem demoLib_updateIMU (b f : ℝ) (q : Quat4) (g a : Vec3f) :
    demoLib.updateIMU b f q g a = q := rfl

/-- The demo library's `Quaternion` constructor is the identity. -/
theorem demoLib_mkQuat (q : Quat4) : demoLib.mkQuat q = q := rfl

/-- The demo library's rotation is the identity on vectors. -/
theorem demoLib_rotate (q : Quat4) (v : Vec3f) : demoLib.rotate q v = v := rfl

/-- The normalized initial quaternion of the demonstration runs. -/
noncomputable def q00 : Quat4 :=
  fun i => ([1, 0, 0, 0] : List ℝ).getD i 0 / norm4 [1, 0, 0, 0]

/-- The gravity vector of the demonstration runs (zero). -/
noncomputable def gv0 : Vec3f := fun i => ([0, 0, 0] : List ℝ).getD i 0

/-- C9 (code-bug demonstration): two successive `apply_ahrs` calls that share
the default workspace (the module-level `workspace=dict()` object).  The
first call processes 3 samples; the second call processes only 2 samples but
returns the REUSED 3-row histories, whose last row still holds the
first call's lab-frame acceleration (y/z gyro value 2, absent from the second
call's arguments): array contents written by the first call are observable
in the second call's results. -/
theorem apply_ahrs_shared_workspace_leak :
    ∃ r1 r2 : (List Vec3f × List Quat4 × Option (List Vec6f)) × Workspace,
      apply_ahrs demoLib [fun _ => 0, fun _ => 1, fun _ => 2]
        [fun _ => 0, fun _ => 1, fun _ => 2]
        [fun _ => 0, fun _ => 1, fun _ => 2]
        [0, 1, 2] [1, 0, 0, 0] [0, 0, 0] false (3/10) {} "IMU" (1/10) =
        .ok r1 ∧
      apply_ahrs demoLib [fun _ => 0, fun _ => 9] [fun _ => 0, fun _ => 9]
        [fun _ => 0, fun _ => 9]
        [0, 1] [1, 0, 0, 0] [0, 0, 0] false (3/10) r1.2 "IMU" (1/10) =
        .ok r2 ∧
      r2.1.1.length = 3 ∧
      (∃ w, r2.1.1[2]? = some w ∧ w 0 = 2) := by
  have e1 : (fun i : Fin 4 =>
      ([(1:ℝ), 0, 0, 0]).getD ↑i 0 / norm4 [1, 0, 0, 0]) = q00 := rfl
  have e2 : (fun i : Fin 3 => ([(0:ℝ), 0, 0]).getD ↑i 0) = gv0 := rfl
  have h1 : apply_ahrs demoLib [fun _ => 0, fun _ => 1, fun _ => 2]
      [fun _ => 0, fun _ => 1, fun _ => 2] [fun _ => 0, fun _ => 1, fun _ => 2]
      [0, 1, 2] [1, 0, 0, 0] [0, 0, 0] false (3/10) {} "IMU" (1/10) =
      .ok (([0, (fun _ => 1) - gv0, (fun _ => 2) - gv0], [q00, q00, q00], none),
        { Q := some [q00, q00, q00], Qquat := some [q00, q00, q00],
          acc_lab := some [0, (fun _ => 1) - gv0, (fun _ => 2) - gv0],
          state := none, acc_scratch := none }) := by
    simp only [apply_ahrs, ahrsCompute]
    rw [e1, e2]
    simp [setE, demoLib_mkQuat]
    rw [ahrsLoop_two]
    simp [ahrsStep_imu, demoLib_updateIMU, demoLib_mkQuat, demoLib_rotate]
  have h2 : apply_ahrs demoLib [fun _ => 0, fun _ => 9] [fun _ => 0, fun _ => 9]
      [fun _ => 0, fun _ => 9] [0, 1] [1, 0, 0, 0] [0, 0, 0] false (3/10)
      { Q := some [q00, q00, q00], Qquat := some [q00, q00, q00],
        acc_lab := some [0, (fun _ => 1) - gv0, (fun _ => 2) - gv0],
        state := none, acc_scratch := none } "IMU" (1/10) =
      .ok (([0, (fun _ => 9) - gv0, (fun _ => 2) - gv0], [q00, q00, q00], none),
        { Q := some [q00, q00, q00], Qquat := some [q00, q00, q00],
          acc_lab := some [0, (fun _ => 9) - gv0, (fun _ => 2) - gv0],
          state := none, acc_scratch := none }) := by
    simp only [apply_ahrs, ahrsCompute]
    rw [e1, e2]
    simp [setE, demoLib_mkQuat]
    rw [ahrsLoop_one]
    simp [ahrsStep_imu, demoLib_updateIMU, demoLib_mkQuat, demoLib_rotate]
  refine ⟨_, _, h1, h2, by simp, ⟨((fun _ => 2) : Vec3f) - gv0, by simp, ?_⟩⟩
  have : (((fun _ => 2) : Vec3f) - gv0) 0 = 2 - gv0 0 := rfl
  rw [this]
  have hgv00 : gv0 0 = 0 := rfl
  rw [hgv00, sub_zero]

end SharedWorkspaceLeak
